import Mathlib

/-!
Verification of the infra-hex core: the paginated fetch orchestrator
(src/client/pagination.rs, src/client/types.rs) and the hex-cell
aggregation pipeline (src/core/arrow.rs, src/core/hex.rs).

The Rust code is embedded shallowly:
* machine integers (usize) become Nat; the one narrowing cast in the
  verified paths, the `*c as u32` on the emitted pipe_count column,
  is modelled explicitly as reduction modulo 2 to the 32;
* fallible code (Result) becomes Except;
* a Rust panic becomes a None of an Option-valued embedding;
* HashMap and HashSet values are embedded as association lists and
  plain lists queried only through lookup and membership, with a
  deterministic iteration order (first-insertion order).  The Rust
  HashMap iteration order is unspecified; every property proved below
  about data that passed through a HashMap is insensitive to that
  order (per-key multiplicities, sortedness of counts, key membership,
  first-seen values);
* the external crates (n3gb_rs grid resolver, arrow builders, geo
  types) are abstracted exactly at the points the source calls them:
  the resolver is a function argument, an arrow array is the list of
  its values, a geometry is an opaque value of a type parameter G.
-/

namespace InfraHex

/-! ## Pagination: src/client/types.rs and src/client/pagination.rs -/

/-- Embeds struct PaginationConfig.  The batch delay only paces the
waves in time and never changes any value, so it is carried as a plain
number of milliseconds. -/
structure PaginationConfig where
  page_size : Nat
  batch_size : Nat
  batch_delay_ms : Nat
  max_offset : Option Nat
deriving Repr, DecidableEq

/-- Embeds the Default impl for PaginationConfig. -/
def PaginationConfig.default : PaginationConfig :=
  { page_size := 100, batch_size := 100, batch_delay_ms := 100, max_offset := none }

/-- Embeds PaginationConfig::opendatasoft. -/
def PaginationConfig.opendatasoft : PaginationConfig :=
  { PaginationConfig.default with max_offset := some 10000 }

/-- Embeds struct InfraResult from src/client/types.rs. -/
structure InfraResult (T E : Type) where
  records : List T
  errors : List E
deriving Repr, DecidableEq

/-- Embeds InfraResult::new. -/
def InfraResult.new {T E : Type} : InfraResult T E := ⟨[], []⟩

/-- Embeds InfraResult::has_errors. -/
def InfraResult.has_errors {T E : Type} (r : InfraResult T E) : Bool :=
  !r.errors.isEmpty

/-- Embeds InfraResult::is_complete. -/
def InfraResult.is_complete {T E : Type} (r : InfraResult T E) : Bool :=
  r.errors.isEmpty

/-- Embeds the Rust iterator chain (0..fetchable).step_by(page_size)
for a positive step: the multiples of page_size strictly below
fetchable, in increasing order.  The list length is the ceiling of
fetchable / page_size. -/
def stepOffsets (fetchable page_size : Nat) : List Nat :=
  (List.range ((fetchable + page_size - 1) / page_size)).map (fun i => i * page_size)

/-- Embeds offset generation including its panic: Range::step_by
panics when the step is zero, which the embedding renders as none. -/
def stepOffsetsChecked (fetchable page_size : Nat) : Option (List Nat) :=
  if page_size = 0 then none else some (stepOffsets fetchable page_size)

/-- Embeds slice::chunks.  The fuel argument bounds the recursion and
is instantiated with the length of the list, which suffices because
every step removes at least one element; the zero-chunk-size case is
unreachable here because the caller checks it first (Rust chunks
panics there). -/
def chunksOfAux {α : Type} : Nat → Nat → List α → List (List α)
  | _, _, [] => []
  | 0, _, _ :: _ => []
  | _ + 1, 0, _ :: _ => []
  | fuel + 1, n + 1, x :: xs => (x :: xs).take (n + 1) :: chunksOfAux fuel (n + 1) (xs.drop n)

/-- Embeds offsets.chunks(batch_size) for a positive batch_size. -/
def chunksOf {α : Type} (n : Nat) (xs : List α) : List (List α) :=
  chunksOfAux xs.length n xs

/-- Embeds the per-page match in the batch-results loop of
fetch_all_pages: records extend the record list, an error is pushed
onto the error list. -/
def processPage {T E : Type} (acc : InfraResult T E) (page_result : Except E (List T)) :
    InfraResult T E :=
  match page_result with
  | .ok records => { acc with records := acc.records ++ records }
  | .error e => { acc with errors := acc.errors ++ [e] }

/-- Embeds the fetchable computation of fetch_all_pages: the max
offset ceiling is applied when configured. -/
def fetchableOf (total_count : Nat) (config : PaginationConfig) : Nat :=
  match config.max_offset with
  | some max => min total_count max
  | none => total_count

/-- The offset list fetch_all_pages iterates over (meaningful when
page_size is positive). -/
def offsetsOf (total_count : Nat) (config : PaginationConfig) : List Nat :=
  stepOffsets (fetchableOf total_count config) config.page_size

/-- Embeds fetch_all_pages from src/client/pagination.rs.  The page
fetcher is the function argument fetch_page; join_all preserves the
order of its futures, so each concurrent wave is embedded as an
in-order traversal of its chunk; the inter-wave sleep changes no
value and is dropped.  A returned none marks a panic of the Rust
code: Range::step_by panics when page_size = 0 and slice::chunks
panics when batch_size = 0, both reached only when total_count > 0. -/
def fetch_all_pages {T E : Type} (total_count : Nat) (config : PaginationConfig)
    (fetch_page : Nat → Nat → Except E (List T)) : Option (InfraResult T E) :=
  if total_count = 0 then some InfraResult.new
  else
    match stepOffsetsChecked (fetchableOf total_count config) config.page_size with
    | none => none
    | some offsets =>
      if config.batch_size = 0 then none
      else
        some ((chunksOf config.batch_size offsets).foldl
          (fun acc chunk =>
            (chunk.map (fun offset => fetch_page offset config.page_size)).foldl
              processPage acc)
          InfraResult.new)

/-- The flat (chunk-free) run over an offset list: the page fetcher is
applied to each offset exactly once, in order, with the page size as
the requested limit. -/
def pageRun {T E : Type} (offsets : List Nat) (page_size : Nat)
    (fetch_page : Nat → Nat → Except E (List T)) : InfraResult T E :=
  (offsets.map (fun offset => fetch_page offset page_size)).foldl
    processPage InfraResult.new

/-- The records of one page result, when it succeeded. -/
def pageOk {T E : Type} (r : Except E (List T)) : Option (List T) :=
  match r with
  | .ok records => some records
  | .error _ => none

/-- The error of one page result, when it failed. -/
def pageErr {T E : Type} (r : Except E (List T)) : Option E :=
  match r with
  | .ok _ => none
  | .error e => some e

/-! ## Aggregation pipeline: src/core/arrow.rs and src/core/hex.rs

The grid resolver (get_hex_cells, backed by the external n3gb_rs
crate) is abstracted as a function argument cellsOf from a record and
a zoom level to a list of cells; the boundary filter trait object is
a function from a zoom level to an optional restriction set; a
geometry (polygon) is an opaque value of the type parameter G. -/

/-- Embeds n3gb_rs::HexCell as the aggregation code observes it: a
string identifier plus the polygon that to_polygon returns, opaque
here. -/
structure HexCell (G : Type) where
  id : String
  geom : G
deriving Repr, DecidableEq

/-- Embeds the order-preserving fallible map of
records.par_iter().map(get_hex_cells).collect::<Result<Vec<_>, _>>():
the whole call fails if any single record fails, otherwise the results
keep record order. -/
def mapExcept {R A E : Type} (f : R → Except E A) : List R → Except E (List A)
  | [] => .ok []
  | r :: rest =>
    match f r with
    | .error e => .error e
    | .ok a =>
      match mapExcept f rest with
      | .error e => .error e
      | .ok as => .ok (a :: as)

/-- Embeds extract_cells_per_pipeline.  The grid resolver
get_hex_cells is the function argument cellsOf.  A HashSet of ids is
embedded as a list queried only through membership. -/
def extract_cells_per_pipeline {R G E : Type}
    (cellsOf : R → Nat → Except E (List (HexCell G)))
    (records : List R) (zoom : Nat) (valid_ids : Option (List String)) :
    Except E (List (List (HexCell G))) :=
  match mapExcept (fun record => cellsOf record zoom) records with
  | .error e => .error e
  | .ok cells_per_pipe =>
    match valid_ids with
    | some valid =>
      .ok (cells_per_pipe.map (fun cells => cells.filter (fun c => valid.contains c.id)))
    | none => .ok cells_per_pipe

/-- The four pass-through attributes a PipelineData record exposes
(src/client/traits.rs): asset_id, pipe_type, material, pressure. -/
structure PipelineAttrs where
  asset_id : Option String
  pipe_type : Option String
  material : Option String
  pressure : Option String
deriving Repr, DecidableEq

/-- Embeds build_pipeline_attributes: one attribute tuple per record,
in record order. -/
def build_pipeline_attributes {R : Type} (attrsOf : R → PipelineAttrs)
    (records : List R) : List PipelineAttrs :=
  records.map attrsOf

/-- Embeds build_hex_ids_list: for each pipeline the ids of its cells
are appended to the list builder in cell order, with no
deduplication. -/
def build_hex_ids_list {G : Type} (cells_per_pipe : List (List (HexCell G))) :
    List (List String) :=
  cells_per_pipe.map (fun cells => cells.map (fun c => c.id))

/-- Embeds build_multipolygon_geometry: per pipeline, the multipolygon
of the polygons of its cells, in cell order. -/
def build_multipolygon_geometry {G : Type} (cells_per_pipe : List (List (HexCell G))) :
    List (List G) :=
  cells_per_pipe.map (fun cells => cells.map (fun c => c.geom))

/-- First-match lookup in an association list; embeds HashMap::get up
to iteration order. -/
def lookupAssoc {α : Type} : List (String × α) → String → Option α
  | [], _ => none
  | (k, v) :: rest, id => if k = id then some v else lookupAssoc rest id

/-- The count stored for a key, zero when absent. -/
def countOf (l : List (String × Nat)) (id : String) : Nat :=
  (lookupAssoc l id).getD 0

/-- Embeds counts.entry(id).or_insert(0) += 1 on the association-list
model of the HashMap: increment the existing entry, or append a fresh
entry with value 1. -/
def bumpCount : List (String × Nat) → String → List (String × Nat)
  | [], id => [(id, 1)]
  | (k, v) :: rest, id =>
    if k = id then (k, v + 1) :: rest else (k, v) :: bumpCount rest id

/-- Embeds cells_map.entry(id).or_insert(cell): keep the existing
entry, or append the new one. -/
def insertIfAbsent {α : Type} (m : List (String × α)) (id : String) (x : α) :
    List (String × α) :=
  match lookupAssoc m id with
  | some _ => m
  | none => m ++ [(id, x)]

/-- The two mutable maps of aggregate_hex_counts. -/
structure AggState (G : Type) where
  counts : List (String × Nat)
  cells_map : List (String × HexCell G)

/-- Embeds the body of the inner cell loop of aggregate_hex_counts:
seen_in_pipe.insert returns false on a repeat id, skipping the cell;
a first-in-pipe id bumps its count and records its first-seen cell. -/
def processCell {G : Type} (acc : AggState G × List String) (cell : HexCell G) :
    AggState G × List String :=
  let (st, seen_in_pipe) := acc
  if seen_in_pipe.contains cell.id then (st, seen_in_pipe)
  else
    (⟨bumpCount st.counts cell.id, insertIfAbsent st.cells_map cell.id cell⟩,
      seen_in_pipe ++ [cell.id])

/-- Embeds one iteration of the outer loop of aggregate_hex_counts:
the seen_in_pipe set starts empty for each pipeline. -/
def processPipe {G : Type} (st : AggState G) (cells : List (HexCell G)) : AggState G :=
  (cells.foldl processCell (st, [])).1

/-- The sort order of sorted.sort_by(|a, b| b.1.cmp(&a.1)):
descending by count. -/
def countDescOrder (a b : String × Nat) : Prop := b.2 ≤ a.2

instance : DecidableRel countDescOrder :=
  fun a b => inferInstanceAs (Decidable (b.2 ≤ a.2))

instance : IsTotal (String × Nat) countDescOrder :=
  ⟨fun a b => Nat.le_total b.2 a.2⟩

instance : IsTrans (String × Nat) countDescOrder :=
  ⟨fun _ _ _ hab hbc => Nat.le_trans hbc hab⟩

/-- Embeds aggregate_hex_counts.  The fold visits pipelines in slice
order and cells in cell order; counts.into_iter() is modelled as
first-insertion order (the Rust HashMap order is unspecified and every
property proved below is insensitive to it); the stable sort_by is
modelled by insertion sort under the same comparator. -/
def aggregate_hex_counts {G : Type} (cells_per_pipe : List (List (HexCell G))) :
    List (String × Nat) × List (String × HexCell G) :=
  let st := cells_per_pipe.foldl processPipe ⟨[], []⟩
  (st.counts.insertionSort countDescOrder, st.cells_map)

/-- One row of the hex summary RecordBatch: hex_id, pipe_count and,
when the geometry column is requested, the representative polygon.
pipe_count carries the value of the emitted UInt32 column entry, a
natural number below 2 to the 32.  A present row with
geometry = none marks the panic of cells_map.get(id).unwrap(); it is
proved unreachable. -/
structure HexSummaryRow (G : Type) where
  hex_id : String
  pipe_count : Nat
  geometry : Option G
deriving Repr, DecidableEq

/-- Embeds to_hex_summary_impl as the list of rows of the produced
RecordBatch (the arrow arrays are column-per-field of exactly these
rows; RecordBatch::try_new sees equal-length columns by construction
since all columns are built from the sorted list).  The pipe_count
column is built with the truncating cast: the source maps each sorted
count c to Some(*c as u32), so the emitted value is the usize count
reduced modulo 2 to the 32; the sort itself happened before the cast,
on the unreduced counts. -/
def to_hex_summary_impl {R G E : Type}
    (cellsOf : R → Nat → Except E (List (HexCell G)))
    (records : List R) (zoom : Nat)
    (filter : Nat → Except E (Option (List String))) (include_geom : Bool) :
    Except E (List (HexSummaryRow G)) :=
  match filter zoom with
  | .error e => .error e
  | .ok valid_ids =>
    match extract_cells_per_pipeline cellsOf records zoom valid_ids with
    | .error e => .error e
    | .ok cells_per_pipe =>
      let p := aggregate_hex_counts cells_per_pipe
      if include_geom then
        .ok (p.1.map (fun q =>
          ⟨q.1, q.2 % 2 ^ 32, (lookupAssoc p.2 q.1).map (fun c => c.geom)⟩))
      else
        .ok (p.1.map (fun q => ⟨q.1, q.2 % 2 ^ 32, none⟩))

/-- One row of the per-record RecordBatch: the pass-through
attributes, the hex_ids list, and, when requested, the multipolygon
of the touched cells. -/
structure PipeRow (G : Type) where
  attrs : PipelineAttrs
  hex_ids : List String
  geometry : Option (List G)
deriving Repr, DecidableEq

/-- Assembles equal-length attribute, hex-id and geometry columns into
rows, the row view of the RecordBatch the Rust code builds
column-wise. -/
def zipRows {G : Type} :
    List PipelineAttrs → List (List String) → List (Option (List G)) → List (PipeRow G)
  | a :: as, b :: bs, c :: cs => ⟨a, b, c⟩ :: zipRows as bs cs
  | _, _, _ => []

/-- Embeds to_record_batch_impl as the list of rows of the produced
RecordBatch.  All columns are built from the same records and
cells_per_pipe, whose lengths agree (the fallible map preserves
length), so RecordBatch::try_new sees equal-length columns and the
row assembly below is exact. -/
def to_record_batch_impl {R G E : Type}
    (cellsOf : R → Nat → Except E (List (HexCell G)))
    (attrsOf : R → PipelineAttrs)
    (records : List R) (zoom : Nat)
    (filter : Nat → Except E (Option (List String))) (include_geom : Bool) :
    Except E (List (PipeRow G)) :=
  match filter zoom with
  | .error e => .error e
  | .ok valid_ids =>
    match extract_cells_per_pipeline cellsOf records zoom valid_ids with
    | .error e => .error e
    | .ok cells_per_pipe =>
      let attrs := build_pipeline_attributes attrsOf records
      let hex_ids_list := build_hex_ids_list cells_per_pipe
      let geoms :=
        if include_geom then (build_multipolygon_geometry cells_per_pipe).map some
        else cells_per_pipe.map (fun _ => none)
      .ok (zipRows attrs hex_ids_list geoms)

/-- Embeds the BoundaryFilter impl for (): valid_cell_ids always
returns Ok(None), meaning no restriction. -/
def noBoundaryFilter {E : Type} : Nat → Except E (Option (List String)) :=
  fun _ => .ok none

/-- A concrete page fetcher that records the (offset, limit) arguments
it was invoked with, used to observe invocations on concrete runs. -/
def countingFetcher : Nat → Nat → Except Unit (List (Nat × Nat)) :=
  fun offset limit => .ok [(offset, limit)]

/-- A concrete page fetcher whose page at offset 100 fails. -/
def failingFetcher : Nat → Nat → Except String (List Nat) :=
  fun offset _ => if offset = 0 then .ok [1, 2, 3] else .error "boom"

/-- The concrete scenario of the spec: three records touching the cell
sets A,B / B / A,C, as a grid resolver function over record indices
(geometries are numbered tokens so first-seen polygons are
observable). -/
def scenarioCells : Nat → Nat → Except Unit (List (HexCell Nat)) :=
  fun n _ =>
    .ok (if n = 0 then [⟨"A", 0⟩, ⟨"B", 1⟩]
      else if n = 1 then [⟨"B", 2⟩]
      else [⟨"A", 3⟩, ⟨"C", 4⟩])

/-- The per-record cell lists of the scenario (no boundary filter). -/
def scenarioCpp : List (List (HexCell Nat)) :=
  [[⟨"A", 0⟩, ⟨"B", 1⟩], [⟨"B", 2⟩], [⟨"A", 3⟩, ⟨"C", 4⟩]]

/-- The hex-summary rows the scenario produces: (A,2), (B,2), (C,1),
descending by count, each with its first-seen geometry. -/
def scenarioRows : List (HexSummaryRow Nat) :=
  [⟨"A", 2, some 0⟩, ⟨"B", 2, some 1⟩, ⟨"C", 1, some 4⟩]

/-- A grid resolver sending every record to the single cell A, used to
drive the cell count of A past the u32 range. -/
def constAResolver : Nat → Nat → Except Unit (List (HexCell Nat)) :=
  fun _ _ => .ok [⟨"A", 0⟩]

/-- A grid resolver sending record 0 to cell A and every other record
to cell B, used to contrast a wrapped count with a small one. -/
def abResolver : Nat → Nat → Except Unit (List (HexCell Nat)) :=
  fun n _ => .ok (if n = 0 then [⟨"A", 0⟩] else [⟨"B", 1⟩])

/-! ## Pagination lemmas -/

theorem chunksOfAux_join {α : Type} :
    ∀ (fuel n : Nat) (xs : List α), 0 < n → xs.length ≤ fuel →
      (chunksOfAux fuel n xs).flatten = xs := by
  intro fuel
  induction fuel with
  | zero =>
    intro n xs _ hl
    cases xs with
    | nil => simp [chunksOfAux]
    | cons x xs => simp at hl
  | succ k ih =>
    intro n xs hn hl
    cases xs with
    | nil => simp [chunksOfAux]
    | cons x xs =>
      cases n with
      | zero => exact absurd hn (by simp)
      | succ m =>
        have hdrop : (xs.drop m).length ≤ k := by
          simp only [List.length_drop]
          simp only [List.length_cons] at hl
          omega
        simp only [chunksOfAux, List.flatten_cons]
        rw [ih (m + 1) (xs.drop m) (Nat.succ_pos m) hdrop]
        rw [List.take_succ_cons, List.cons_append, List.take_append_drop]

theorem chunksOf_join {α : Type} (n : Nat) (xs : List α) (hn : 0 < n) :
    (chunksOf n xs).flatten = xs :=
  chunksOfAux_join xs.length n xs hn le_rfl

theorem foldl_chunks_eq_join {T E : Type} (g : Nat → Except E (List T)) :
    ∀ (chs : List (List Nat)) (init : InfraResult T E),
      chs.foldl (fun acc chunk => (chunk.map g).foldl processPage acc) init =
        ((chs.flatten).map g).foldl processPage init := by
  intro chs
  induction chs with
  | nil => intro init; simp
  | cons c cs ih =>
    intro init
    simp only [List.foldl_cons, List.flatten_cons, List.map_append, List.foldl_append]
    exact ih _

theorem foldl_processPage_records {T E : Type} :
    ∀ (rs : List (Except E (List T))) (acc : InfraResult T E),
      (rs.foldl processPage acc).records = acc.records ++ (rs.filterMap pageOk).flatten := by
  intro rs
  induction rs with
  | nil => intro acc; simp
  | cons r rest ih =>
    intro acc
    cases r with
    | ok recs =>
      simp only [List.foldl_cons, processPage, ih, List.filterMap_cons, pageOk,
        List.flatten_cons, List.append_assoc]
    | error e =>
      simp only [List.foldl_cons, processPage, ih, List.filterMap_cons, pageOk]

theorem foldl_processPage_errors {T E : Type} :
    ∀ (rs : List (Except E (List T))) (acc : InfraResult T E),
      (rs.foldl processPage acc).errors = acc.errors ++ rs.filterMap pageErr := by
  intro rs
  induction rs with
  | nil => intro acc; simp
  | cons r rest ih =>
    intro acc
    cases r with
    | ok recs =>
      simp only [List.foldl_cons, processPage, ih, List.filterMap_cons, pageErr]
    | error e =>
      simp only [List.foldl_cons, processPage, ih, List.filterMap_cons, pageErr,
        List.append_assoc, List.singleton_append]

theorem fetchableOf_zero (config : PaginationConfig) : fetchableOf 0 config = 0 := by
  unfold fetchableOf
  cases config.max_offset <;> simp

theorem stepOffsets_zero (page_size : Nat) (h : 0 < page_size) :
    stepOffsets 0 page_size = [] := by
  unfold stepOffsets
  have hdiv : (0 + page_size - 1) / page_size = 0 := Nat.div_eq_of_lt (by omega)
  rw [hdiv]
  simp

theorem stepOffsets_single (fetchable page_size : Nat) (h1 : 0 < fetchable)
    (h2 : fetchable ≤ page_size) : stepOffsets fetchable page_size = [0] := by
  unfold stepOffsets
  have hdiv : (fetchable + page_size - 1) / page_size = 1 := by
    apply Nat.div_eq_of_lt_le
    · omega
    · omega
  rw [hdiv]
  simp [List.range_succ]

theorem fetch_all_pages_eq_pageRun {T E : Type} (total_count : Nat)
    (config : PaginationConfig) (f : Nat → Nat → Except E (List T))
    (hps : 0 < config.page_size) (hbs : 0 < config.batch_size) :
    fetch_all_pages total_count config f =
      some (pageRun (offsetsOf total_count config) config.page_size f) := by
  unfold fetch_all_pages
  by_cases h0 : total_count = 0
  · subst h0
    rw [if_pos rfl]
    have hoff : offsetsOf 0 config = [] := by
      unfold offsetsOf
      rw [fetchableOf_zero]
      exact stepOffsets_zero config.page_size hps
    rw [hoff]
    rfl
  · rw [if_neg h0]
    unfold stepOffsetsChecked
    rw [if_neg (Nat.pos_iff_ne_zero.mp hps)]
    simp only
    rw [if_neg (Nat.pos_iff_ne_zero.mp hbs)]
    rw [foldl_chunks_eq_join (fun offset => f offset config.page_size)]
    rw [chunksOf_join config.batch_size _ hbs]
    rfl

/-! ## Pagination claim theorems -/

/-- Claim C2: with a positive page size and batch size, fetch_all_pages
applies the page fetcher once per generated offset, in order (the
pageRun form), and the number of generated offsets is the ceiling of
min(total_count, max_offset when configured else total_count) divided
by page_size.  The witness instantiates max_offset = 300,
page_size = 100, total_count = 1000 and observes exactly 3 fetches. -/
theorem fetch_all_pages_count_eq_ceil {T E : Type} (total_count : Nat)
    (config : PaginationConfig) (f : Nat → Nat → Except E (List T))
    (hps : 0 < config.page_size) (hbs : 0 < config.batch_size) :
    fetch_all_pages total_count config f =
      some (pageRun (offsetsOf total_count config) config.page_size f) ∧
    (offsetsOf total_count config).length =
      (min total_count (config.max_offset.getD total_count) + config.page_size - 1) /
        config.page_size := by
  refine ⟨fetch_all_pages_eq_pageRun total_count config f hps hbs, ?_⟩
  unfold offsetsOf fetchableOf stepOffsets
  cases h : config.max_offset with
  | none => simp [h, Nat.min_self]
  | some m => simp [h]

/-- Witness for C2: the spec instance max_offset = 300,
page_size = 100, total_count = 1000 issues exactly the three page
fetches at offsets 0, 100, 200. -/
theorem fetch_all_pages_count_eq_ceil_witness :
    fetch_all_pages 1000 ⟨100, 100, 100, some 300⟩
        (fun o _ => (Except.ok [o] : Except Unit (List Nat))) =
      some ⟨[0, 100, 200], []⟩ ∧
    (offsetsOf 1000 ⟨100, 100, 100, some 300⟩).length = 3 := by
  have h := fetch_all_pages_count_eq_ceil 1000 ⟨100, 100, 100, some 300⟩
    (fun o _ => (Except.ok [o] : Except Unit (List Nat))) (by decide) (by decide)
  exact ⟨by rw [h.1]; rfl, by rw [h.2]; decide⟩

/-- Claim C3: the outcome of fetch_all_pages concatenates exactly the
records of the succeeding pages, holds exactly one error per failed
page (a failed page contributes zero records and never aborts the
call), and is_complete holds iff the error list is empty. -/
theorem fetch_all_pages_partial_failure {T E : Type} (total_count : Nat)
    (config : PaginationConfig) (f : Nat → Nat → Except E (List T))
    (hps : 0 < config.page_size) (hbs : 0 < config.batch_size) :
    ∃ res : InfraResult T E,
      fetch_all_pages total_count config f = some res ∧
      res.records =
        ((offsetsOf total_count config).filterMap
          (fun o => pageOk (f o config.page_size))).flatten ∧
      res.errors =
        (offsetsOf total_count config).filterMap (fun o => pageErr (f o config.page_size)) ∧
      (res.is_complete = true ↔ res.errors = []) := by
  refine ⟨pageRun (offsetsOf total_count config) config.page_size f,
    fetch_all_pages_eq_pageRun total_count config f hps hbs, ?_, ?_, ?_⟩
  · unfold pageRun
    rw [foldl_processPage_records]
    simp [InfraResult.new, List.filterMap_map, Function.comp_def]
  · unfold pageRun
    rw [foldl_processPage_errors]
    simp [InfraResult.new, List.filterMap_map, Function.comp_def]
  · simp [InfraResult.is_complete, List.isEmpty_iff]

/-- Witness for C3: two pages, the page at offset 100 fails; the
outcome keeps the three records of the succeeding page and exactly one
error, and is_complete is false. -/
theorem fetch_all_pages_partial_failure_witness :
    fetch_all_pages 200 ⟨100, 100, 100, none⟩ failingFetcher =
      some ⟨[1, 2, 3], ["boom"]⟩ ∧
    (InfraResult.mk [1, 2, 3] ["boom"] : InfraResult Nat String).is_complete = false := by
  obtain ⟨⟨recs, errs⟩, h1, h2, h3, _⟩ :=
    fetch_all_pages_partial_failure 200 ⟨100, 100, 100, none⟩ failingFetcher
      (by decide) (by decide)
  have hr : recs = [1, 2, 3] := h2
  have he : errs = ["boom"] := h3
  subst hr
  subst he
  exact ⟨h1, rfl⟩

/-- Claim C5 counterexample: total_count = 80, page_size = 100,
max_offset = 50 issues one page fetch whose requested limit is the
full page_size 100, not the ceiling 50 — the code always passes
config.page_size as the limit argument. -/
theorem fetch_all_pages_limit_not_capped_cex :
    fetch_all_pages 80 ⟨100, 100, 100, some 50⟩ countingFetcher =
      some ⟨[(0, 100)], []⟩ := by
  rfl

/-- Claim C5 (amended): for total_count > 0 and a configured
max_offset m with 0 < m < page_size, exactly one page fetch is
issued, at offset 0, and its requested limit is the full page_size
(not capped to m). -/
theorem fetch_all_pages_small_max_offset_single_page {T E : Type} (total_count : Nat)
    (config : PaginationConfig) (f : Nat → Nat → Except E (List T)) (m : Nat)
    (htc : 0 < total_count) (hm : config.max_offset = some m) (hm0 : 0 < m)
    (hlt : m < config.page_size) (hbs : 0 < config.batch_size) :
    offsetsOf total_count config = [0] ∧
    fetch_all_pages total_count config f =
      some (processPage InfraResult.new (f 0 config.page_size)) := by
  have hps : 0 < config.page_size := by omega
  have hoff : offsetsOf total_count config = [0] := by
    have hfe : fetchableOf total_count config = min total_count m := by
      unfold fetchableOf
      rw [hm]
    unfold offsetsOf
    rw [hfe]
    exact stepOffsets_single _ _ (by omega) (by omega)
  refine ⟨hoff, ?_⟩
  rw [fetch_all_pages_eq_pageRun total_count config f hps hbs, hoff]
  rfl

/-- Witness for C5 (amended): total_count = 80, page_size = 100,
max_offset = 50: one fetch, at offset 0, with requested limit 100. -/
theorem fetch_all_pages_small_max_offset_single_page_witness :
    offsetsOf 80 ⟨100, 100, 100, some 50⟩ = [0] ∧
    fetch_all_pages 80 ⟨100, 100, 100, some 50⟩ countingFetcher =
      some ⟨[(0, 100)], []⟩ := by
  have h := fetch_all_pages_small_max_offset_single_page 80 ⟨100, 100, 100, some 50⟩
    countingFetcher 50 (by decide) rfl (by decide) (by decide) (by decide)
  exact ⟨h.1, by rw [h.2]; rfl⟩

/-- Claim C8 counterexample: total_count = 0 satisfies
total_count ≤ page_size, yet fetch_all_pages returns immediately with
zero page fetches (the recording fetcher leaves no trace), not exactly
one. -/
theorem fetch_all_pages_zero_count_no_fetch_cex :
    fetch_all_pages 0 ⟨100, 100, 100, none⟩ countingFetcher = some ⟨[], []⟩ ∧
    offsetsOf 0 ⟨100, 100, 100, none⟩ = [] := by
  exact ⟨rfl, rfl⟩

/-- Claim C8 (amended): for 0 < total_count ≤ page_size, with any
configured max_offset positive (or none), fetch_all_pages invokes the
page fetcher exactly once, at offset 0. -/
theorem fetch_all_pages_single_page_of_le_page_size {T E : Type} (total_count : Nat)
    (config : PaginationConfig) (f : Nat → Nat → Except E (List T))
    (htc : 0 < total_count) (hle : total_count ≤ config.page_size)
    (hmax : ∀ m, config.max_offset = some m → 0 < m)
    (hbs : 0 < config.batch_size) :
    offsetsOf total_count config = [0] ∧
    fetch_all_pages total_count config f =
      some (processPage InfraResult.new (f 0 config.page_size)) := by
  have hps : 0 < config.page_size := by omega
  have hoff : offsetsOf total_count config = [0] := by
    unfold offsetsOf
    cases hm : config.max_offset with
    | none =>
      have hfe : fetchableOf total_count config = total_count := by
        unfold fetchableOf
        rw [hm]
      rw [hfe]
      exact stepOffsets_single _ _ htc hle
    | some m =>
      have hm0 := hmax m hm
      have hfe : fetchableOf total_count config = min total_count m := by
        unfold fetchableOf
        rw [hm]
      rw [hfe]
      exact stepOffsets_single _ _ (by omega) (by omega)
  refine ⟨hoff, ?_⟩
  rw [fetch_all_pages_eq_pageRun total_count config f hps hbs, hoff]
  rfl

/-- Witness for C8 (amended): total_count = 50 ≤ page_size = 100, no
max_offset: exactly one fetch at offset 0. -/
theorem fetch_all_pages_single_page_of_le_page_size_witness :
    offsetsOf 50 ⟨100, 100, 100, none⟩ = [0] ∧
    fetch_all_pages 50 ⟨100, 100, 100, none⟩ countingFetcher =
      some ⟨[(0, 100)], []⟩ := by
  have h := fetch_all_pages_single_page_of_le_page_size 50 ⟨100, 100, 100, none⟩
    countingFetcher (by decide) (by decide) (fun m hm => by cases hm) (by decide)
  exact ⟨h.1, by rw [h.2]; rfl⟩

/-- Claim C9: for total_count > 0, page_size = 0 makes fetch_all_pages
panic (Range::step_by with a zero step, rendered as none) instead of
returning a Configuration error or any InfraResult; and for any
positive page_size, offset generation itself never panics. -/
theorem fetch_all_pages_page_size_zero_panics {T E : Type} (total_count : Nat)
    (config : PaginationConfig) (f : Nat → Nat → Except E (List T))
    (htc : 0 < total_count) :
    (config.page_size = 0 → fetch_all_pages total_count config f = none) ∧
    (∀ fetchable page_size : Nat, 0 < page_size →
      (stepOffsetsChecked fetchable page_size).isSome = true) := by
  constructor
  · intro h0
    unfold fetch_all_pages
    rw [if_neg (Nat.pos_iff_ne_zero.mp htc)]
    simp [stepOffsetsChecked, h0]
  · intro fetchable page_size hps
    simp [stepOffsetsChecked, Nat.pos_iff_ne_zero.mp hps]

/-- Witness for C9: total_count = 1 with page_size = 0 panics (none);
offset generation with page_size = 100 succeeds. -/
theorem fetch_all_pages_page_size_zero_panics_witness :
    fetch_all_pages 1 ⟨0, 100, 100, none⟩ countingFetcher = none ∧
    (stepOffsetsChecked 1 100).isSome = true := by
  have h := fetch_all_pages_page_size_zero_panics 1 ⟨0, 100, 100, none⟩
    countingFetcher (by decide)
  exact ⟨h.1 rfl, h.2 1 100 (by decide)⟩

/-! ## Association-list lemmas for the aggregation maps -/

theorem lookupAssoc_append {α : Type} (l₁ l₂ : List (String × α)) (id : String) :
    lookupAssoc (l₁ ++ l₂) id = (lookupAssoc l₁ id).or (lookupAssoc l₂ id) := by
  induction l₁ with
  | nil => simp [lookupAssoc]
  | cons p rest ih =>
    obtain ⟨k, v⟩ := p
    by_cases h : k = id
    · simp [lookupAssoc, h]
    · simp [lookupAssoc, h, ih]

theorem lookupAssoc_bumpCount_self (l : List (String × Nat)) (id : String) :
    lookupAssoc (bumpCount l id) id = some (countOf l id + 1) := by
  induction l with
  | nil => simp [bumpCount, lookupAssoc, countOf]
  | cons p rest ih =>
    obtain ⟨k, v⟩ := p
    by_cases h : k = id
    · simp [bumpCount, lookupAssoc, h, countOf]
    · simp [bumpCount, lookupAssoc, h, ih, countOf]

theorem lookupAssoc_bumpCount_ne (l : List (String × Nat)) (id id' : String)
    (h : id' ≠ id) : lookupAssoc (bumpCount l id) id' = lookupAssoc l id' := by
  have hne : id ≠ id' := fun he => h he.symm
  induction l with
  | nil => simp [bumpCount, lookupAssoc, hne]
  | cons p rest ih =>
    obtain ⟨k, v⟩ := p
    by_cases hk : k = id
    · subst hk
      simp [bumpCount, lookupAssoc, hne]
    · simp only [bumpCount, if_neg hk, lookupAssoc]
      by_cases hk' : k = id'
      · simp [hk']
      · simp [hk', ih]

theorem countOf_bumpCount_self (l : List (String × Nat)) (id : String) :
    countOf (bumpCount l id) id = countOf l id + 1 := by
  simp [countOf, lookupAssoc_bumpCount_self]

theorem countOf_bumpCount_ne (l : List (String × Nat)) (id id' : String) (h : id' ≠ id) :
    countOf (bumpCount l id) id' = countOf l id' := by
  simp [countOf, lookupAssoc_bumpCount_ne l id id' h]

theorem lookupAssoc_insertIfAbsent_self {α : Type} (m : List (String × α)) (k : String)
    (x : α) : lookupAssoc (insertIfAbsent m k x) k = (lookupAssoc m k).or (some x) := by
  unfold insertIfAbsent
  cases h : lookupAssoc m k with
  | some v => simp [h]
  | none => simp [h, lookupAssoc_append, lookupAssoc]

theorem lookupAssoc_insertIfAbsent_ne {α : Type} (m : List (String × α)) (k id : String)
    (x : α) (h : id ≠ k) :
    lookupAssoc (insertIfAbsent m k x) id = lookupAssoc m id := by
  have hne : k ≠ id := fun he => h he.symm
  unfold insertIfAbsent
  cases hm : lookupAssoc m k with
  | some v => rfl
  | none =>
    rw [lookupAssoc_append]
    simp [lookupAssoc, hne]

theorem lookupAssoc_isSome_of_mem {α : Type} (l : List (String × α)) (k : String) (v : α)
    (h : (k, v) ∈ l) : (lookupAssoc l k).isSome = true := by
  induction l with
  | nil => cases h
  | cons p rest ih =>
    obtain ⟨k', v'⟩ := p
    by_cases hk : k' = k
    · simp [lookupAssoc, hk]
    · simp only [List.mem_cons] at h
      rcases h with h | h
      · cases h
        exact absurd rfl hk
      · simp [lookupAssoc, hk, ih h]

theorem mem_keys_bumpCount (l : List (String × Nat)) (id a : String)
    (h : a ∈ (bumpCount l id).map Prod.fst) : a ∈ l.map Prod.fst ∨ a = id := by
  induction l with
  | nil => simpa [bumpCount] using h
  | cons p rest ih =>
    obtain ⟨k, v⟩ := p
    by_cases hk : k = id
    · subst hk
      simp only [bumpCount, if_pos rfl] at h
      left
      simpa using h
    · simp only [bumpCount, if_neg hk, List.map_cons, List.mem_cons] at h
      rcases h with h | h
      · exact Or.inl (by simp [h])
      · rcases ih h with h' | h'
        · exact Or.inl (by simp [h'])
        · exact Or.inr h'

theorem keys_bumpCount_nodup (l : List (String × Nat)) (id : String)
    (h : (l.map Prod.fst).Nodup) : ((bumpCount l id).map Prod.fst).Nodup := by
  induction l with
  | nil => simp [bumpCount]
  | cons p rest ih =>
    obtain ⟨k, v⟩ := p
    simp only [List.map_cons, List.nodup_cons] at h
    by_cases hk : k = id
    · subst hk
      simp only [bumpCount, if_true, List.map_cons, List.nodup_cons]
      exact ⟨h.1, h.2⟩
    · simp only [bumpCount, if_neg hk, List.map_cons, List.nodup_cons]
      refine ⟨?_, ih h.2⟩
      intro hmem
      rcases mem_keys_bumpCount rest id k hmem with h' | h'
      · exact h.1 h'
      · exact hk h'

theorem lookupAssoc_eq_of_mem_nodup {α : Type} (l : List (String × α)) (k : String) (v : α)
    (hnd : (l.map Prod.fst).Nodup) (h : (k, v) ∈ l) : lookupAssoc l k = some v := by
  induction l with
  | nil => cases h
  | cons p rest ih =>
    obtain ⟨k', v'⟩ := p
    simp only [List.map_cons, List.nodup_cons] at hnd
    simp only [List.mem_cons] at h
    rcases h with h | h
    · cases h
      simp [lookupAssoc]
    · have hk : k' ≠ k := by
        intro he
        subst he
        exact hnd.1 (by simpa using List.mem_map_of_mem Prod.fst h)
      simp [lookupAssoc, hk, ih hnd.2 h]

theorem find?_append_or {α : Type} (l₁ l₂ : List α) (p : α → Bool) :
    (l₁ ++ l₂).find? p = (l₁.find? p).or (l₂.find? p) := by
  induction l₁ with
  | nil => simp
  | cons a l ih =>
    by_cases h : p a
    · simp [List.find?_cons_of_pos, h]
    · rw [List.cons_append, List.find?_cons_of_neg _ (by simpa using h),
        List.find?_cons_of_neg _ (by simpa using h), ih]

/-! ## Fold invariants of aggregate_hex_counts -/

theorem any_id_eq_exists {G : Type} (cells : List (HexCell G)) (id : String) :
    (cells.any (fun c => c.id == id) = true) ↔ ∃ c ∈ cells, c.id = id := by
  simp [List.any_eq_true]

theorem foldl_processCell_counts {G : Type} :
    ∀ (cells : List (HexCell G)) (st : AggState G) (seen : List String) (id : String),
      countOf ((cells.foldl processCell (st, seen)).1.counts) id =
        countOf st.counts id +
          (if id ∈ seen then 0
           else if ∃ c ∈ cells, c.id = id then 1 else 0) := by
  intro cells
  induction cells with
  | nil =>
    intro st seen id
    by_cases h : id ∈ seen <;> simp [h]
  | cons c rest ih =>
    intro st seen id
    simp only [List.foldl_cons]
    by_cases hc : c.id ∈ seen
    · have hpc : processCell (st, seen) c = (st, seen) := by
        simp [processCell, hc]
      rw [hpc, ih]
      by_cases hid : id = c.id
      · subst hid
        simp [hc]
      · have hid2 : c.id ≠ id := fun he => hid he.symm
        simp [hid2]
    · have hpc : processCell (st, seen) c =
          (⟨bumpCount st.counts c.id, insertIfAbsent st.cells_map c.id c⟩,
            seen ++ [c.id]) := by
        simp [processCell, hc]
      rw [hpc, ih]
      by_cases hid : id = c.id
      · subst hid
        rw [countOf_bumpCount_self]
        simp [hc]
      · have hid2 : c.id ≠ id := fun he => hid he.symm
        rw [countOf_bumpCount_ne _ _ _ hid]
        simp [hid, hid2]

theorem foldl_processCell_mapLookup {G : Type} :
    ∀ (cells : List (HexCell G)) (st : AggState G) (seen : List String) (id : String),
      lookupAssoc ((cells.foldl processCell (st, seen)).1.cells_map) id =
        if id ∈ seen then lookupAssoc st.cells_map id
        else (lookupAssoc st.cells_map id).or (cells.find? (fun c => c.id == id)) := by
  intro cells
  induction cells with
  | nil =>
    intro st seen id
    by_cases h : id ∈ seen <;> simp [h]
  | cons c rest ih =>
    intro st seen id
    simp only [List.foldl_cons]
    by_cases hc : c.id ∈ seen
    · have hpc : processCell (st, seen) c = (st, seen) := by
        simp [processCell, hc]
      rw [hpc, ih]
      by_cases hid : id = c.id
      · subst hid
        simp [hc]
      · have hid2 : c.id ≠ id := fun he => hid he.symm
        rw [List.find?_cons_of_neg _ (by simp [hid2])]
    · have hpc : processCell (st, seen) c =
          (⟨bumpCount st.counts c.id, insertIfAbsent st.cells_map c.id c⟩,
            seen ++ [c.id]) := by
        simp [processCell, hc]
      rw [hpc, ih]
      by_cases hid : id = c.id
      · subst hid
        rw [if_pos (by simp), if_neg hc]
        rw [lookupAssoc_insertIfAbsent_self]
        rw [List.find?_cons_of_pos _ (by simp)]
      · have hid2 : c.id ≠ id := fun he => hid he.symm
        rw [lookupAssoc_insertIfAbsent_ne _ _ _ _ hid]
        rw [List.find?_cons_of_neg _ (by simp [hid2])]
        exact if_congr (by simp [hid]) rfl rfl

theorem foldl_processCell_nodupKeys {G : Type} :
    ∀ (cells : List (HexCell G)) (st : AggState G) (seen : List String),
      (st.counts.map Prod.fst).Nodup →
      (((cells.foldl processCell (st, seen)).1.counts).map Prod.fst).Nodup := by
  intro cells
  induction cells with
  | nil => intro st seen h; exact h
  | cons c rest ih =>
    intro st seen h
    simp only [List.foldl_cons]
    by_cases hc : c.id ∈ seen
    · have hpc : processCell (st, seen) c = (st, seen) := by
        simp [processCell, hc]
      rw [hpc]
      exact ih st seen h
    · have hpc : processCell (st, seen) c =
          (⟨bumpCount st.counts c.id, insertIfAbsent st.cells_map c.id c⟩,
            seen ++ [c.id]) := by
        simp [processCell, hc]
      rw [hpc]
      exact ih _ _ (keys_bumpCount_nodup st.counts c.id h)

theorem foldl_processCell_keySub {G : Type} :
    ∀ (cells : List (HexCell G)) (st : AggState G) (seen : List String),
      (∀ id, (lookupAssoc st.counts id).isSome = true →
        (lookupAssoc st.cells_map id).isSome = true) →
      ∀ id, (lookupAssoc ((cells.foldl processCell (st, seen)).1.counts) id).isSome = true →
        (lookupAssoc ((cells.foldl processCell (st, seen)).1.cells_map) id).isSome = true := by
  intro cells
  induction cells with
  | nil => intro st seen h id; exact h id
  | cons c rest ih =>
    intro st seen h id
    simp only [List.foldl_cons]
    by_cases hc : c.id ∈ seen
    · have hpc : processCell (st, seen) c = (st, seen) := by
        simp [processCell, hc]
      rw [hpc]
      exact ih st seen h id
    · have hpc : processCell (st, seen) c =
          (⟨bumpCount st.counts c.id, insertIfAbsent st.cells_map c.id c⟩,
            seen ++ [c.id]) := by
        simp [processCell, hc]
      rw [hpc]
      refine ih _ _ ?_ id
      intro id2 hlk
      by_cases hid : id2 = c.id
      · subst hid
        rw [lookupAssoc_insertIfAbsent_self]
        cases lookupAssoc st.cells_map c.id <;> simp
      · rw [lookupAssoc_insertIfAbsent_ne _ _ _ _ hid]
        rw [lookupAssoc_bumpCount_ne _ _ _ hid] at hlk
        exact h id2 hlk

theorem processPipe_counts {G : Type} (st : AggState G) (cells : List (HexCell G))
    (id : String) :
    countOf ((processPipe st cells).counts) id =
      countOf st.counts id + (if ∃ c ∈ cells, c.id = id then 1 else 0) := by
  unfold processPipe
  rw [foldl_processCell_counts]
  simp

theorem processPipe_mapLookup {G : Type} (st : AggState G) (cells : List (HexCell G))
    (id : String) :
    lookupAssoc ((processPipe st cells).cells_map) id =
      (lookupAssoc st.cells_map id).or (cells.find? (fun c => c.id == id)) := by
  unfold processPipe
  rw [foldl_processCell_mapLookup]
  simp

theorem foldl_processPipe_counts {G : Type} :
    ∀ (pipes : List (List (HexCell G))) (st : AggState G) (id : String),
      countOf ((pipes.foldl processPipe st).counts) id =
        countOf st.counts id +
          pipes.countP (fun cells => cells.any (fun c => c.id == id)) := by
  intro pipes
  induction pipes with
  | nil => intro st id; simp
  | cons cells rest ih =>
    intro st id
    simp only [List.foldl_cons]
    rw [ih, processPipe_counts]
    by_cases h : ∃ c ∈ cells, c.id = id
    · have hb : cells.any (fun c => c.id == id) = true := (any_id_eq_exists cells id).mpr h
      simp [List.countP_cons, hb, h]
      omega
    · have hb : cells.any (fun c => c.id == id) = false := by
        rw [← Bool.not_eq_true]
        exact fun hh => h ((any_id_eq_exists cells id).mp hh)
      simp [List.countP_cons, hb, h]

theorem foldl_processPipe_mapLookup {G : Type} :
    ∀ (pipes : List (List (HexCell G))) (st : AggState G) (id : String),
      lookupAssoc ((pipes.foldl processPipe st).cells_map) id =
        (lookupAssoc st.cells_map id).or
          (pipes.flatten.find? (fun c => c.id == id)) := by
  intro pipes
  induction pipes with
  | nil => intro st id; simp
  | cons cells rest ih =>
    intro st id
    simp only [List.foldl_cons, List.flatten_cons]
    rw [ih, processPipe_mapLookup, find?_append_or]
    cases lookupAssoc st.cells_map id <;>
      cases cells.find? (fun c => c.id == id) <;> simp

theorem foldl_processPipe_nodupKeys {G : Type} :
    ∀ (pipes : List (List (HexCell G))) (st : AggState G),
      (st.counts.map Prod.fst).Nodup →
      (((pipes.foldl processPipe st).counts).map Prod.fst).Nodup := by
  intro pipes
  induction pipes with
  | nil => intro st h; exact h
  | cons cells rest ih =>
    intro st h
    simp only [List.foldl_cons]
    exact ih _ (foldl_processCell_nodupKeys cells st [] h)

theorem foldl_processPipe_keySub {G : Type} :
    ∀ (pipes : List (List (HexCell G))) (st : AggState G),
      (∀ id, (lookupAssoc st.counts id).isSome = true →
        (lookupAssoc st.cells_map id).isSome = true) →
      ∀ id, (lookupAssoc ((pipes.foldl processPipe st).counts) id).isSome = true →
        (lookupAssoc ((pipes.foldl processPipe st).cells_map) id).isSome = true := by
  intro pipes
  induction pipes with
  | nil => intro st h id; exact h id
  | cons cells rest ih =>
    intro st h id
    simp only [List.foldl_cons]
    exact ih _ (foldl_processCell_keySub cells st [] h) id

/-! ## Aggregate-level lemmas -/

theorem aggregate_counts_mem_iff {G : Type} (cpp : List (List (HexCell G)))
    (q : String × Nat) :
    q ∈ (aggregate_hex_counts cpp).1 ↔
      q ∈ (cpp.foldl processPipe ⟨[], []⟩).counts := by
  unfold aggregate_hex_counts
  exact (List.perm_insertionSort countDescOrder _).mem_iff

theorem aggregate_counts_value {G : Type} (cpp : List (List (HexCell G)))
    (q : String × Nat) (hq : q ∈ (aggregate_hex_counts cpp).1) :
    q.2 = cpp.countP (fun cells => cells.any (fun c => c.id == q.1)) := by
  have hmem : q ∈ (cpp.foldl processPipe ⟨[], []⟩).counts :=
    (aggregate_counts_mem_iff cpp q).mp hq
  have hnd : (((cpp.foldl processPipe (⟨[], []⟩ : AggState G)).counts).map Prod.fst).Nodup :=
    foldl_processPipe_nodupKeys cpp ⟨[], []⟩ (by simp)
  obtain ⟨k, v⟩ := q
  have hlk := lookupAssoc_eq_of_mem_nodup _ k v hnd hmem
  have hcount := foldl_processPipe_counts cpp ⟨[], []⟩ k
  simp only [countOf, hlk, Option.getD_some] at hcount
  simpa [lookupAssoc] using hcount

theorem aggregate_map_lookup {G : Type} (cpp : List (List (HexCell G))) (id : String) :
    lookupAssoc (aggregate_hex_counts cpp).2 id =
      cpp.flatten.find? (fun c => c.id == id) := by
  unfold aggregate_hex_counts
  have h := foldl_processPipe_mapLookup cpp ⟨[], []⟩ id
  simpa [lookupAssoc] using h

theorem aggregate_map_isSome {G : Type} (cpp : List (List (HexCell G)))
    (q : String × Nat) (hq : q ∈ (aggregate_hex_counts cpp).1) :
    (lookupAssoc (aggregate_hex_counts cpp).2 q.1).isSome = true := by
  have hmem : q ∈ (cpp.foldl processPipe ⟨[], []⟩).counts :=
    (aggregate_counts_mem_iff cpp q).mp hq
  have hcsome : (lookupAssoc ((cpp.foldl processPipe (⟨[], []⟩ : AggState G)).counts)
      q.1).isSome = true :=
    lookupAssoc_isSome_of_mem _ q.1 q.2 hmem
  exact foldl_processPipe_keySub cpp ⟨[], []⟩
    (fun id h => by simp [lookupAssoc] at h) q.1 hcsome

theorem aggregate_sorted {G : Type} (cpp : List (List (HexCell G))) :
    List.Pairwise countDescOrder (aggregate_hex_counts cpp).1 := by
  unfold aggregate_hex_counts
  exact List.sorted_insertionSort countDescOrder _

/-! ## Lemmas for runs past the u32 range -/

theorem mapExcept_replicate {R A E : Type} (f : R → Except E A) (r : R) (a : A)
    (h : f r = .ok a) :
    ∀ n, mapExcept f (List.replicate n r) = .ok (List.replicate n a) := by
  intro n
  induction n with
  | zero => rfl
  | succ m ih => simp [List.replicate_succ, mapExcept, h, ih]

theorem mapExcept_append_ok {R A E : Type} (f : R → Except E A) :
    ∀ (l₁ l₂ : List R) (a₁ a₂ : List A), mapExcept f l₁ = .ok a₁ →
      mapExcept f l₂ = .ok a₂ → mapExcept f (l₁ ++ l₂) = .ok (a₁ ++ a₂) := by
  intro l₁
  induction l₁ with
  | nil =>
    intro l₂ a₁ a₂ h1 h2
    simp only [mapExcept, Except.ok.injEq] at h1
    subst h1
    simpa using h2
  | cons r rest ih =>
    intro l₂ a₁ a₂ h1 h2
    simp only [mapExcept] at h1
    simp only [List.cons_append, mapExcept]
    cases hf : f r with
    | error e => rw [hf] at h1; cases h1
    | ok a =>
      rw [hf] at h1
      cases hm : mapExcept f rest with
      | error e => rw [hm] at h1; cases h1
      | ok as =>
        rw [hm] at h1
        simp only [Except.ok.injEq] at h1
        subst h1
        simp only [List.append_eq]
        rw [ih l₂ as a₂ hm h2]
        rfl

theorem countP_replicate_of_pos {α : Type} (p : α → Bool) (x : α) (h : p x = true) :
    ∀ n, (List.replicate n x).countP p = n := by
  intro n
  induction n with
  | zero => rfl
  | succ m ih => simp [List.replicate_succ, List.countP_cons, h, ih]

theorem foldl_processPipe_replicate {G : Type} (c : HexCell G) :
    ∀ (n k : Nat),
      (List.replicate n [c]).foldl processPipe ⟨[(c.id, k)], [(c.id, c)]⟩ =
        ⟨[(c.id, k + n)], [(c.id, c)]⟩ := by
  intro n
  induction n with
  | zero => intro k; simp
  | succ m ih =>
    intro k
    rw [List.replicate_succ, List.foldl_cons]
    have hstep : processPipe (⟨[(c.id, k)], [(c.id, c)]⟩ : AggState G) [c] =
        ⟨[(c.id, k + 1)], [(c.id, c)]⟩ := by
      simp [processPipe, processCell, bumpCount, insertIfAbsent, lookupAssoc]
    rw [hstep, ih (k + 1)]
    have harith : k + 1 + m = k + (m + 1) := by omega
    rw [harith]

theorem aggregate_replicate_single {G : Type} (c : HexCell G) (m : Nat) :
    aggregate_hex_counts (List.replicate (m + 1) [c]) = ([(c.id, m + 1)], [(c.id, c)]) := by
  unfold aggregate_hex_counts
  rw [List.replicate_succ, List.foldl_cons]
  have hstep : processPipe (⟨[], []⟩ : AggState G) [c] = ⟨[(c.id, 1)], [(c.id, c)]⟩ := by
    simp [processPipe, processCell, bumpCount, insertIfAbsent, lookupAssoc]
  rw [hstep, foldl_processPipe_replicate c m 1]
  have harith : 1 + m = m + 1 := by omega
  rw [harith]
  simp [List.insertionSort, List.orderedInsert]

theorem aggregate_replicate_pair {G : Type} (cA cB : HexCell G) (m : Nat)
    (hne : cB.id ≠ cA.id) :
    aggregate_hex_counts (List.replicate (m + 1) [cA] ++ [[cB]]) =
      ([(cA.id, m + 1), (cB.id, 1)], [(cA.id, cA), (cB.id, cB)]) := by
  have hstep : processPipe (⟨[], []⟩ : AggState G) [cA] = ⟨[(cA.id, 1)], [(cA.id, cA)]⟩ := by
    simp [processPipe, processCell, bumpCount, insertIfAbsent, lookupAssoc]
  have hAB : ¬(cA.id = cB.id) := fun he => hne he.symm
  have hstep2 : processPipe (⟨[(cA.id, 1 + m)], [(cA.id, cA)]⟩ : AggState G) [cB] =
      ⟨[(cA.id, 1 + m), (cB.id, 1)], [(cA.id, cA), (cB.id, cB)]⟩ := by
    simp [processPipe, processCell, bumpCount, insertIfAbsent, lookupAssoc, hAB]
  have hsplit : (List.replicate (m + 1) [cA] ++ [[cB]]).foldl processPipe
      (⟨[], []⟩ : AggState G) =
      processPipe ((List.replicate (m + 1) [cA]).foldl processPipe ⟨[], []⟩) [cB] := by
    rw [List.foldl_append]
    rfl
  have hfirst : (List.replicate (m + 1) [cA]).foldl processPipe
      (⟨[], []⟩ : AggState G) = ⟨[(cA.id, 1 + m)], [(cA.id, cA)]⟩ := by
    rw [List.replicate_succ, List.foldl_cons, hstep, foldl_processPipe_replicate cA m 1]
  unfold aggregate_hex_counts
  rw [hsplit, hfirst, hstep2, Nat.add_comm 1 m]
  simp [List.insertionSort, List.orderedInsert, countDescOrder,
    show (1 : Nat) ≤ m + 1 from Nat.le_add_left 1 m]

theorem extract_replicateA (n : Nat) :
    extract_cells_per_pipeline constAResolver (List.replicate n 0) 12 none =
      .ok (List.replicate n [(⟨"A", 0⟩ : HexCell Nat)]) := by
  unfold extract_cells_per_pipeline
  rw [mapExcept_replicate (fun record => constAResolver record 12) 0
    [(⟨"A", 0⟩ : HexCell Nat)] rfl n]

theorem extract_repA_B (m : Nat) :
    extract_cells_per_pipeline abResolver (List.replicate (m + 1) 0 ++ [1]) 12 none =
      .ok (List.replicate (m + 1) [(⟨"A", 0⟩ : HexCell Nat)] ++ [[⟨"B", 1⟩]]) := by
  unfold extract_cells_per_pipeline
  rw [mapExcept_append_ok (fun record => abResolver record 12)
    (List.replicate (m + 1) 0) [1]
    (List.replicate (m + 1) [(⟨"A", 0⟩ : HexCell Nat)]) [[⟨"B", 1⟩]]
    (mapExcept_replicate (fun record => abResolver record 12) 0
      [(⟨"A", 0⟩ : HexCell Nat)] rfl (m + 1)) rfl]

theorem summary_replicateA (m : Nat) :
    to_hex_summary_impl constAResolver (List.replicate (m + 1) 0) 12 noBoundaryFilter
        true =
      .ok [⟨"A", (m + 1) % 2 ^ 32, some 0⟩] := by
  unfold to_hex_summary_impl
  simp only [noBoundaryFilter, extract_replicateA (m + 1), if_true]
  rw [aggregate_replicate_single (⟨"A", 0⟩ : HexCell Nat) m]
  simp [lookupAssoc]

theorem summary_repA_B (m : Nat) :
    to_hex_summary_impl abResolver (List.replicate (m + 1) 0 ++ [1]) 12 noBoundaryFilter
        true =
      .ok [⟨"A", (m + 1) % 2 ^ 32, some 0⟩, ⟨"B", 1 % 2 ^ 32, some 1⟩] := by
  unfold to_hex_summary_impl
  simp only [noBoundaryFilter, extract_repA_B m, if_true]
  rw [aggregate_replicate_pair (⟨"A", 0⟩ : HexCell Nat) (⟨"B", 1⟩ : HexCell Nat) m
    (by decide)]
  simp [lookupAssoc]

/-! ## Aggregation claim theorems -/

/-- Claim C1 counterexample: with 2 to the 32 records all touching
cell A, the emitted pipe_count is 0 (the u32 cast truncates), while
the number of distinct records whose surviving cell set contains A is
2 to the 32 — the emitted count does not equal the distinct-record
count. -/
theorem to_hex_summary_count_truncated_cex :
    to_hex_summary_impl constAResolver (List.replicate (2 ^ 32) 0) 12 noBoundaryFilter
        true =
      Except.ok [⟨"A", 0, some 0⟩] ∧
    extract_cells_per_pipeline constAResolver (List.replicate (2 ^ 32) 0) 12 none =
      Except.ok (List.replicate (2 ^ 32) [(⟨"A", 0⟩ : HexCell Nat)]) ∧
    (List.replicate (2 ^ 32) [(⟨"A", 0⟩ : HexCell Nat)]).countP
        (fun cells => cells.any (fun c => c.id == "A")) = 2 ^ 32 ∧
    (0 : Nat) ≠ 2 ^ 32 := by
  have h1 := summary_replicateA (2 ^ 32 - 1)
  rw [show (2 : Nat) ^ 32 - 1 + 1 = 2 ^ 32 from by norm_num] at h1
  refine ⟨?_, extract_replicateA (2 ^ 32), ?_, by norm_num⟩
  · rw [h1]
    norm_num
  · exact countP_replicate_of_pos _ _ (by decide) (2 ^ 32)

/-- Claim C1 (amended): the count emitted for a cell identifier by
to_hex_summary_impl equals the number of distinct records whose
surviving (post-filter) cell list contains that identifier, reduced
modulo 2 to the 32 by the u32 cast on the emitted column; whenever
there are fewer than 2 to the 32 records the emitted count equals
that number exactly.  A record whose geometry touches a cell several
times still contributes at most one, because the count is a countP
over records. -/
theorem to_hex_summary_count_per_cell {R G E : Type}
    (cellsOf : R → Nat → Except E (List (HexCell G))) (records : List R) (zoom : Nat)
    (filter : Nat → Except E (Option (List String))) (include_geom : Bool)
    (valid_ids : Option (List String)) (cpp : List (List (HexCell G)))
    (rows : List (HexSummaryRow G))
    (hf : filter zoom = .ok valid_ids)
    (hx : extract_cells_per_pipeline cellsOf records zoom valid_ids = .ok cpp)
    (hs : to_hex_summary_impl cellsOf records zoom filter include_geom = .ok rows) :
    ∀ row ∈ rows,
      row.pipe_count =
        cpp.countP (fun cells => cells.any (fun c => c.id == row.hex_id)) % 2 ^ 32 ∧
      (cpp.length < 2 ^ 32 → row.pipe_count =
        cpp.countP (fun cells => cells.any (fun c => c.id == row.hex_id))) := by
  unfold to_hex_summary_impl at hs
  simp only [hf, hx] at hs
  cases include_geom with
  | true =>
    simp only [if_true] at hs
    have hrows : rows = (aggregate_hex_counts cpp).1.map
        (fun q => ⟨q.1, q.2 % 2 ^ 32,
          (lookupAssoc (aggregate_hex_counts cpp).2 q.1).map (fun c => c.geom)⟩) := by
      cases hs
      rfl
    subst hrows
    intro row hr
    obtain ⟨q, hq, rfl⟩ := List.mem_map.mp hr
    have hv := aggregate_counts_value cpp q hq
    refine ⟨by rw [show (⟨q.1, q.2 % 2 ^ 32, _⟩ : HexSummaryRow G).pipe_count =
      q.2 % 2 ^ 32 from rfl, hv], ?_⟩
    intro hlen
    show q.2 % 2 ^ 32 = _
    rw [hv]
    exact Nat.mod_eq_of_lt (Nat.lt_of_le_of_lt (List.countP_le_length _) hlen)
  | false =>
    simp only [Bool.false_eq_true, if_false] at hs
    have hrows : rows = (aggregate_hex_counts cpp).1.map
        (fun q => ⟨q.1, q.2 % 2 ^ 32, none⟩) := by
      cases hs
      rfl
    subst hrows
    intro row hr
    obtain ⟨q, hq, rfl⟩ := List.mem_map.mp hr
    have hv := aggregate_counts_value cpp q hq
    refine ⟨by rw [show (⟨q.1, q.2 % 2 ^ 32, none⟩ : HexSummaryRow G).pipe_count =
      q.2 % 2 ^ 32 from rfl, hv], ?_⟩
    intro hlen
    show q.2 % 2 ^ 32 = _
    rw [hv]
    exact Nat.mod_eq_of_lt (Nat.lt_of_le_of_lt (List.countP_le_length _) hlen)

/-- Witness for C1 (amended): in the spec scenario (records touching
A,B / B / A,C) the emitted count 2 of row A equals the number of
records whose cell list contains A, both modulo 2 to the 32 and, the
record count being small, exactly. -/
theorem to_hex_summary_count_per_cell_witness :
    (⟨"A", 2, some 0⟩ : HexSummaryRow Nat).pipe_count =
      scenarioCpp.countP (fun cells => cells.any (fun c => c.id == "A")) % 2 ^ 32 ∧
    (⟨"A", 2, some 0⟩ : HexSummaryRow Nat).pipe_count =
      scenarioCpp.countP (fun cells => cells.any (fun c => c.id == "A")) := by
  have h := to_hex_summary_count_per_cell scenarioCells [0, 1, 2] 12
    noBoundaryFilter true none scenarioCpp scenarioRows rfl rfl rfl
  have h2 := h ⟨"A", 2, some 0⟩ (by decide)
  exact ⟨h2.1, h2.2 (by decide)⟩

/-- Claim C6 counterexample: with 2 to the 32 records touching A and
one touching B, the rows are sorted on the pre-cast counts
(2 to the 32, then 1) but the emitted u32 column reads 0 then 1 —
not descending, because the truncating cast is not monotone. -/
theorem to_hex_summary_sort_truncated_cex :
    to_hex_summary_impl abResolver (List.replicate (2 ^ 32) 0 ++ [1]) 12
        noBoundaryFilter true =
      Except.ok [⟨"A", 0, some 0⟩, ⟨"B", 1, some 1⟩] ∧
    ¬ List.Pairwise (fun a b : HexSummaryRow Nat => b.pipe_count ≤ a.pipe_count)
      [(⟨"A", 0, some 0⟩ : HexSummaryRow Nat), ⟨"B", 1, some 1⟩] := by
  constructor
  · have h1 := summary_repA_B (2 ^ 32 - 1)
    rw [show (2 : Nat) ^ 32 - 1 + 1 = 2 ^ 32 from by norm_num] at h1
    rw [h1]
    norm_num
  · decide

/-- Claim C6 (amended): whenever the record count stays below
2 to the 32 (so the u32 cast truncates nothing) the summary rows are
sorted by count descending — in general the sort happens on the
pre-cast counts and the emitted column need not be descending — and,
unconditionally, the representative geometry of each row is the
polygon of the first cell bearing that identifier in the fold order
over records (the concatenation order of the per-record cell
lists). -/
theorem to_hex_summary_sorted_first_geom {R G E : Type}
    (cellsOf : R → Nat → Except E (List (HexCell G))) (records : List R) (zoom : Nat)
    (filter : Nat → Except E (Option (List String)))
    (valid_ids : Option (List String)) (cpp : List (List (HexCell G)))
    (rows : List (HexSummaryRow G))
    (hf : filter zoom = .ok valid_ids)
    (hx : extract_cells_per_pipeline cellsOf records zoom valid_ids = .ok cpp)
    (hs : to_hex_summary_impl cellsOf records zoom filter true = .ok rows) :
    (cpp.length < 2 ^ 32 →
      List.Pairwise (fun a b : HexSummaryRow G => b.pipe_count ≤ a.pipe_count) rows) ∧
    ∀ row ∈ rows, row.geometry =
      (cpp.flatten.find? (fun c => c.id == row.hex_id)).map (fun c => c.geom) := by
  unfold to_hex_summary_impl at hs
  simp only [hf, hx] at hs
  simp only [if_true] at hs
  have hrows : rows = (aggregate_hex_counts cpp).1.map
      (fun q => ⟨q.1, q.2 % 2 ^ 32,
        (lookupAssoc (aggregate_hex_counts cpp).2 q.1).map (fun c => c.geom)⟩) := by
    cases hs
    rfl
  subst hrows
  constructor
  · intro hlen
    rw [List.pairwise_map]
    refine List.Pairwise.imp_of_mem ?_ (aggregate_sorted cpp)
    intro a b ha hb hr
    have hav := aggregate_counts_value cpp a ha
    have hbv := aggregate_counts_value cpp b hb
    have ha2 : a.2 < 2 ^ 32 := by
      rw [hav]
      exact Nat.lt_of_le_of_lt (List.countP_le_length _) hlen
    have hb2 : b.2 < 2 ^ 32 := by
      rw [hbv]
      exact Nat.lt_of_le_of_lt (List.countP_le_length _) hlen
    show b.2 % 2 ^ 32 ≤ a.2 % 2 ^ 32
    rw [Nat.mod_eq_of_lt ha2, Nat.mod_eq_of_lt hb2]
    exact hr
  · intro row hr
    obtain ⟨q, hq, rfl⟩ := List.mem_map.mp hr
    show (lookupAssoc (aggregate_hex_counts cpp).2 q.1).map (fun c => c.geom) = _
    rw [aggregate_map_lookup]

/-- Witness for C6 (amended): the scenario has 3 records, so its rows
(A,2), (B,2), (C,1) come out descending, and the geometry of row A is
the polygon token 0 of the first A-cell in fold order (not the later
token 3). -/
theorem to_hex_summary_sorted_first_geom_witness :
    List.Pairwise (fun a b : HexSummaryRow Nat => b.pipe_count ≤ a.pipe_count)
      scenarioRows ∧
    (⟨"A", 2, some 0⟩ : HexSummaryRow Nat).geometry =
      (scenarioCpp.flatten.find? (fun c => c.id == "A")).map (fun c => c.geom) := by
  have h := to_hex_summary_sorted_first_geom scenarioCells [0, 1, 2] 12
    noBoundaryFilter none scenarioCpp scenarioRows rfl rfl rfl
  exact ⟨h.1 (by decide), h.2 ⟨"A", 2, some 0⟩ (by decide)⟩

/-- Claim C10: every identifier in the sorted count list of
aggregate_hex_counts is a key of the returned cells map, so the
cells_map.get(id).unwrap() of to_hex_summary_impl never panics: every
produced row carries a present geometry. -/
theorem cells_map_get_never_panics {R G E : Type}
    (cellsOf : R → Nat → Except E (List (HexCell G))) (records : List R) (zoom : Nat)
    (filter : Nat → Except E (Option (List String)))
    (valid_ids : Option (List String)) (cpp : List (List (HexCell G)))
    (rows : List (HexSummaryRow G))
    (hf : filter zoom = .ok valid_ids)
    (hx : extract_cells_per_pipeline cellsOf records zoom valid_ids = .ok cpp)
    (hs : to_hex_summary_impl cellsOf records zoom filter true = .ok rows) :
    (∀ q ∈ (aggregate_hex_counts cpp).1,
      (lookupAssoc (aggregate_hex_counts cpp).2 q.1).isSome = true) ∧
    ∀ row ∈ rows, row.geometry.isSome = true := by
  unfold to_hex_summary_impl at hs
  simp only [hf, hx] at hs
  simp only [if_true] at hs
  have hrows : rows = (aggregate_hex_counts cpp).1.map
      (fun q => ⟨q.1, q.2 % 2 ^ 32,
        (lookupAssoc (aggregate_hex_counts cpp).2 q.1).map (fun c => c.geom)⟩) := by
    cases hs
    rfl
  subst hrows
  refine ⟨fun q hq => aggregate_map_isSome cpp q hq, ?_⟩
  intro row hr
  obtain ⟨q, hq, rfl⟩ := List.mem_map.mp hr
  show ((lookupAssoc (aggregate_hex_counts cpp).2 q.1).map (fun c => c.geom)).isSome = true
  have hq2 := aggregate_map_isSome cpp q hq
  cases hcase : lookupAssoc (aggregate_hex_counts cpp).2 q.1 with
  | none => rw [hcase] at hq2; cases hq2
  | some c => rfl

/-- Witness for C10: in the scenario, the pair (A,2) of the sorted
list has A present in the cells map, and every emitted row, in
particular row A, carries a geometry. -/
theorem cells_map_get_never_panics_witness :
    (lookupAssoc (aggregate_hex_counts scenarioCpp).2 "A").isSome = true ∧
    (⟨"A", 2, some 0⟩ : HexSummaryRow Nat).geometry.isSome = true := by
  have h := cells_map_get_never_panics scenarioCells [0, 1, 2] 12
    noBoundaryFilter none scenarioCpp scenarioRows rfl rfl rfl
  exact ⟨h.1 ("A", 2) (by decide), h.2 ⟨"A", 2, some 0⟩ (by decide)⟩

/-! ## Per-record table lemmas and claims -/

theorem mapExcept_ok_length {R A E : Type} (f : R → Except E A) :
    ∀ (l : List R) (l2 : List A), mapExcept f l = .ok l2 → l2.length = l.length := by
  intro l
  induction l with
  | nil =>
    intro l2 h
    simp only [mapExcept, Except.ok.injEq] at h
    subst h
    rfl
  | cons r rest ih =>
    intro l2 h
    simp only [mapExcept] at h
    cases hf : f r with
    | error e => rw [hf] at h; cases h
    | ok a =>
      rw [hf] at h
      cases hm : mapExcept f rest with
      | error e => rw [hm] at h; cases h
      | ok as =>
        rw [hm] at h
        simp only [Except.ok.injEq] at h
        subst h
        simp [ih as hm]

theorem extract_ok_length {R G E : Type}
    (cellsOf : R → Nat → Except E (List (HexCell G))) (records : List R) (zoom : Nat)
    (valid_ids : Option (List String)) (cpp : List (List (HexCell G)))
    (hx : extract_cells_per_pipeline cellsOf records zoom valid_ids = .ok cpp) :
    cpp.length = records.length := by
  unfold extract_cells_per_pipeline at hx
  cases hm : mapExcept (fun record => cellsOf record zoom) records with
  | error e => rw [hm] at hx; cases hx
  | ok cpp0 =>
    rw [hm] at hx
    have hl := mapExcept_ok_length _ records cpp0 hm
    cases valid_ids with
    | some valid =>
      simp only [Except.ok.injEq] at hx
      subst hx
      simp [hl]
    | none =>
      simp only [Except.ok.injEq] at hx
      subst hx
      exact hl

theorem zipRows_map_hex_ids {G : Type} :
    ∀ (as : List PipelineAttrs) (bs : List (List String)) (cs : List (Option (List G))),
      as.length = bs.length → cs.length = bs.length →
      (zipRows as bs cs).map (fun row => row.hex_ids) = bs := by
  intro as
  induction as with
  | nil =>
    intro bs cs h1 h2
    cases bs with
    | nil => simp [zipRows]
    | cons b bs => simp at h1
  | cons a as ih =>
    intro bs cs h1 h2
    cases bs with
    | nil => simp at h1
    | cons b bs =>
      cases cs with
      | nil => simp at h2
      | cons c cs =>
        simp only [zipRows, List.map_cons]
        rw [ih bs cs (by simpa using h1) (by simpa using h2)]

/-- Claim C4 counterexample: a record whose grid resolver output
repeats the identifier A twice gets the hex_ids list [A, A] in its
per-record row — the list is not deduplicated. -/
theorem to_record_batch_hex_ids_dup_cex :
    to_record_batch_impl
        (fun (_ : Nat) (_ : Nat) =>
          (Except.ok [⟨"A", 0⟩, ⟨"A", 0⟩] : Except Unit (List (HexCell Nat))))
        (fun _ => ⟨none, none, none, none⟩) [0] 12 noBoundaryFilter false =
      Except.ok [⟨⟨none, none, none, none⟩, ["A", "A"], none⟩] ∧
    ¬ (["A", "A"] : List String).Nodup := by
  exact ⟨rfl, by decide⟩

/-- Claim C4 (amended): the hex_ids list emitted for each record's row
equals exactly the identifiers of that record's surviving cells in
resolver order, duplicates included — build_hex_ids_list performs no
deduplication, so an identifier returned several times by the grid
resolver appears several times. -/
theorem to_record_batch_hex_ids_exact {R G E : Type}
    (cellsOf : R → Nat → Except E (List (HexCell G)))
    (attrsOf : R → PipelineAttrs) (records : List R) (zoom : Nat)
    (filter : Nat → Except E (Option (List String))) (include_geom : Bool)
    (valid_ids : Option (List String)) (cpp : List (List (HexCell G)))
    (rows : List (PipeRow G))
    (hf : filter zoom = .ok valid_ids)
    (hx : extract_cells_per_pipeline cellsOf records zoom valid_ids = .ok cpp)
    (hs : to_record_batch_impl cellsOf attrsOf records zoom filter include_geom =
      .ok rows) :
    rows.map (fun row => row.hex_ids) = build_hex_ids_list cpp := by
  unfold to_record_batch_impl at hs
  simp only [hf, hx] at hs
  have hlen := extract_ok_length cellsOf records zoom valid_ids cpp hx
  cases include_geom with
  | true =>
    simp only [if_true] at hs
    have hrows : rows = zipRows (build_pipeline_attributes attrsOf records)
        (build_hex_ids_list cpp) ((build_multipolygon_geometry cpp).map some) := by
      cases hs
      rfl
    subst hrows
    exact zipRows_map_hex_ids _ _ _
      (by simp [build_pipeline_attributes, build_hex_ids_list, hlen])
      (by simp [build_multipolygon_geometry, build_hex_ids_list])
  | false =>
    simp only [Bool.false_eq_true, if_false] at hs
    have hrows : rows = zipRows (build_pipeline_attributes attrsOf records)
        (build_hex_ids_list cpp) (cpp.map (fun _ => none)) := by
      cases hs
      rfl
    subst hrows
    exact zipRows_map_hex_ids _ _ _
      (by simp [build_pipeline_attributes, build_hex_ids_list, hlen])
      (by simp [build_hex_ids_list])

/-- Witness for C4 (amended): the duplicated resolver output [A, A]
passes through to the row verbatim. -/
theorem to_record_batch_hex_ids_exact_witness :
    ([(⟨⟨none, none, none, none⟩, ["A", "A"], none⟩ : PipeRow Nat)]).map
        (fun row => row.hex_ids) =
      build_hex_ids_list [[(⟨"A", 0⟩ : HexCell Nat), ⟨"A", 0⟩]] := by
  exact to_record_batch_hex_ids_exact
    (fun (_ : Nat) (_ : Nat) =>
      (Except.ok [⟨"A", 0⟩, ⟨"A", 0⟩] : Except Unit (List (HexCell Nat))))
    (fun _ => ⟨none, none, none, none⟩) [0] 12 noBoundaryFilter false
    none [[⟨"A", 0⟩, ⟨"A", 0⟩]]
    [⟨⟨none, none, none, none⟩, ["A", "A"], none⟩] rfl rfl rfl

/-- Claim C7: a restriction set covering every cell any record touches
filters nothing: the per-record cell lists and hence the whole summary
agree with the no-filter run; no restriction (None) keeps all cells
while the empty restriction set removes every cell. -/
theorem boundary_filter_idempotent {R G E : Type}
    (cellsOf : R → Nat → Except E (List (HexCell G))) (records : List R) (zoom : Nat)
    (S : List String) (cpp : List (List (HexCell G)))
    (hx : extract_cells_per_pipeline cellsOf records zoom none = .ok cpp)
    (hcov : ∀ cells ∈ cpp, ∀ c ∈ cells, c.id ∈ S) :
    extract_cells_per_pipeline cellsOf records zoom (some S) = .ok cpp ∧
    (∀ include_geom,
      to_hex_summary_impl cellsOf records zoom (fun _ => .ok (some S)) include_geom =
        to_hex_summary_impl cellsOf records zoom noBoundaryFilter include_geom) ∧
    extract_cells_per_pipeline cellsOf records zoom (some []) =
      .ok (cpp.map (fun _ => ([] : List (HexCell G)))) := by
  have hm : mapExcept (fun record => cellsOf record zoom) records = .ok cpp := by
    unfold extract_cells_per_pipeline at hx
    cases hm2 : mapExcept (fun record => cellsOf record zoom) records with
    | error e => rw [hm2] at hx; cases hx
    | ok cpp0 =>
      rw [hm2] at hx
      simp only [Except.ok.injEq] at hx
      rw [hx]
  have hsome : extract_cells_per_pipeline cellsOf records zoom (some S) = .ok cpp := by
    unfold extract_cells_per_pipeline
    rw [hm]
    simp only [Except.ok.injEq]
    have hself : ∀ cells ∈ cpp, cells.filter (fun c => S.contains c.id) = cells :=
      fun cells hc => List.filter_eq_self.mpr
        (fun c hcc => by simp [hcov cells hc c hcc])
    calc cpp.map (fun cells => cells.filter (fun c => S.contains c.id))
        = cpp.map (fun cells => cells) := List.map_congr_left hself
      _ = cpp := List.map_id cpp
  refine ⟨hsome, ?_, ?_⟩
  · intro include_geom
    unfold to_hex_summary_impl
    simp only [noBoundaryFilter, hsome, hx]
  · unfold extract_cells_per_pipeline
    rw [hm]
    simp

/-- Witness for C7: in the scenario, the covering set listing A, B, C
filters nothing and the summaries agree; the empty set empties every
per-record list. -/
theorem boundary_filter_idempotent_witness :
    extract_cells_per_pipeline scenarioCells [0, 1, 2] 12 (some ["A", "B", "C"]) =
      Except.ok scenarioCpp ∧
    to_hex_summary_impl scenarioCells [0, 1, 2] 12
        (fun _ => .ok (some ["A", "B", "C"])) true =
      to_hex_summary_impl scenarioCells [0, 1, 2] 12 noBoundaryFilter true ∧
    extract_cells_per_pipeline scenarioCells [0, 1, 2] 12 (some []) =
      Except.ok [[], [], []] := by
  have h := boundary_filter_idempotent scenarioCells [0, 1, 2] 12 ["A", "B", "C"]
    scenarioCpp rfl (by decide)
  exact ⟨h.1, h.2.1 true, by rw [h.2.2]; rfl⟩

end InfraHex
